import Mathlib

/-!
Verification development for `monolithic_hybrid_compare.py`: a shallow
embedding of the BGP/VPN policy model, the ACL chain compiler, the two
encoding strategies (monolithic/global and hybrid/local), and the scoped
query-evaluation protocol, together with theorems settling the frozen
claims about the program.

Python integers are embedded as `Nat`/`Int` (they are unbounded in the
source); functions that can raise exceptions are embedded as `Option` (or
return an `Except` in the solver-protocol model).
-/

/- ===== String helpers (embedding `str.split`, `in`, `int(...)`,
   `ipaddress.IPv4Address`) ===== -/

/-- Splitting a character list at a separator character, accumulator style.
Mirrors Python `str.split(sep)` for a one-character separator. -/
def charsSplit (sep : Char) : List Char → List Char → List (List Char)
  | [], acc => [acc.reverse]
  | c :: rest, acc =>
    if c = sep then acc.reverse :: charsSplit sep rest []
    else charsSplit sep rest (c :: acc)

/-- Python `s.split(sep)` for a single-character separator. -/
def strSplit (sep : Char) (s : String) : List String :=
  (charsSplit sep s.toList []).map (fun l => String.mk l)

/-- Value of a decimal digit character. -/
def digitVal (c : Char) : Nat := c.toNat - '0'.toNat

/-- Parse a nonempty all-decimal-digit character list to a number. -/
def decDigits? (cs : List Char) : Option Nat :=
  if cs.isEmpty then none
  else if cs.all Char.isDigit then
    some (cs.foldl (fun acc c => acc * 10 + digitVal c) 0)
  else none

/-- Python `int(s)`: an optional sign followed by decimal digits. -/
def pyInt? (s : String) : Option Int :=
  match s.toList with
  | '-' :: rest => (decDigits? rest).map (fun n => -(n : Int))
  | '+' :: rest => (decDigits? rest).map (fun n => (n : Int))
  | cs => (decDigits? cs).map (fun n => (n : Int))

/-- One dotted-quad octet, with the checks `ipaddress.IPv4Address` applies:
digits only, at most three characters, no leading zero, value at most 255. -/
def parseOctet (s : String) : Option Nat :=
  match decDigits? s.toList with
  | none => none
  | some n =>
    if s.toList.length > 3 then none
    else if s.toList.length > 1 && (s.toList.headD '0' == '0') then none
    else if n ≤ 255 then some n else none

/-- Numeric value of a dotted-quad IPv4 address string
(`int(ipaddress.IPv4Address(s))`). -/
def ipv4_to_int (s : String) : Option Nat :=
  match strSplit '.' s with
  | [a, b, c, d] =>
    match parseOctet a, parseOctet b, parseOctet c, parseOctet d with
    | some a, some b, some c, some d =>
      some (((a * 256 + b) * 256 + c) * 256 + d)
    | _, _, _, _ => none
  | _ => none

/-- Embeds `ip_str_to_int`: strip anything after a `/`, then parse the
dotted quad. Raising `AddressValueError` is embedded as `none`. -/
def ip_str_to_int (s : String) : Option Nat :=
  let core := if s.toList.contains '/' then (strSplit '/' s).headD "" else s
  ipv4_to_int core

/-- Embeds `get_ip_interval`.  A mask length above 32 makes the Python
shift count negative, raising `ValueError`, embedded as `none`; a
non-positive mask length is accepted (Python shifts by more than 32). -/
def get_ip_interval (pfxStr : String) (maskLen : Int) : Option (Nat × Nat) :=
  match ip_str_to_int pfxStr with
  | none => none
  | some ipInt =>
    if maskLen > 32 then none
    else
      let k : Nat := (32 - maskLen).toNat
      let maskBit : Nat := (0xFFFFFFFF <<< k) &&& 0xFFFFFFFF
      let startIp : Nat := ipInt &&& maskBit
      let size : Nat := 1 <<< k
      some (startIp, startIp + size - 1)

/- ===== ACL rules and the chain compiler ===== -/

/-- A raw ACL rule as it appears in the configuration JSON: a Python dict
whose fields may all be absent.  `pfx` embeds the `prefix` key. -/
structure RawRule where
  index : Option Int := none
  pfx : Option String := none
  mask : Option Int := none
  act : Option String := none
deriving DecidableEq, Repr

/-- Boolean expressions over the single symbolic address variable, the
fragment of solver terms `build_acl_logic` produces: constants,
comparisons of the address variable with literals, conjunction, and
if-then-else. -/
inductive BExpr where
  | boolVal (b : Bool)
  | varGe (n : Int)
  | varLe (n : Int)
  | band (p q : BExpr)
  | bite (c t e : BExpr)
deriving DecidableEq, Repr

/-- Evaluation of a compiled expression with the address variable bound to
a concrete integer value. -/
def evalB (v : Int) : BExpr → Bool
  | .boolVal b => b
  | .varGe n => decide (n ≤ v)
  | .varLe n => decide (v ≤ n)
  | .band p q => evalB v p && evalB v q
  | .bite c t e => if evalB v c then evalB v t else evalB v e

/-- The prefix/mask resolution lines of `build_acl_logic`: a missing
`prefix` field defaults to `0.0.0.0`; with a `/` in the prefix, the mask
comes from the part after the slash (a two-way split, anything else
raises) and the `mask` field is ignored; otherwise a missing `mask` field
defaults to 32. -/
def rulePfxMask (rule : RawRule) : Option (String × Int) :=
  let rawPfx := rule.pfx.getD "0.0.0.0"
  if rawPfx.toList.contains '/' then
    match strSplit '/' rawPfx with
    | [p, m] => (pyInt? m).map (fun mk => (p, mk))
    | _ => none
  else some (rawPfx, rule.mask.getD 32)

/-- The per-rule part of `build_acl_logic` (its lines before the recursive
call): prefix/mask resolution, the interval computation, and the `action`
field defaulting to permit.  Returns the interval bounds and whether the
rule denies. -/
def parseRuleHead (rule : RawRule) : Option (Nat × Nat × Bool) :=
  match rulePfxMask rule with
  | none => none
  | some (p, mk) =>
    match get_ip_interval p mk with
    | none => none
    | some (s, e) => some (s, e, (rule.act.getD "permit") == "deny")

/-- Embeds `build_acl_logic`: the empty chain compiles to the constant
false; a rule compiles to a right-nested conditional around the
compilation of the remaining rules.  A rule whose prefix or mask cannot be
parsed raises in Python, embedded as `none`. -/
def build_acl_logic : List RawRule → Option BExpr
  | [] => some (.boolVal false)
  | r :: rest =>
    match parseRuleHead r with
    | none => none
    | some (s, e, d) =>
      match build_acl_logic rest with
      | none => none
      | some restE =>
        some (.bite (.band (.varGe (s : Int)) (.varLe (e : Int))) (.boolVal d) restE)

/-- Modelled from the spec's words (the reference semantics the compiled
expression is compared against): a straightforward first-match linear scan
of the chain.  The first rule whose interval contains the address
determines the verdict; a chain with no matching rule yields not-denied. -/
def scanChain (rules : List RawRule) (v : Int) : Option Bool :=
  match rules with
  | [] => some false
  | r :: rest =>
    match parseRuleHead r with
    | none => none
    | some (s, e, d) =>
      if (s : Int) ≤ v ∧ v ≤ (e : Int) then some d else scanChain rest v

/-- A rule matches a concrete address when it parses and its interval
contains the address. -/
def matchesRule (v : Int) (r : RawRule) : Prop :=
  match parseRuleHead r with
  | some (s, e, _) => (s : Int) ≤ v ∧ v ≤ (e : Int)
  | none => False

/- ===== Topology / configuration input and the model loader ===== -/

/-- A node of the topology file. -/
structure TopoNode where
  id : String
deriving DecidableEq, Repr

/-- Parsed topology JSON: the node list and, when the `bgp_sessions`
object carries an `ibgp_pe_mesh` key, the session pairs. -/
structure TopoData where
  nodes : List TopoNode
  ibgpPeMesh : Option (List (String × String))
deriving DecidableEq, Repr

/-- One entry of `vpn_network_intents`; missing JSON keys are embedded as
the corresponding empty-list defaults `.get` supplies. -/
structure VpnIntent where
  peId : String
  exportRt : List String := []
  importRt : List String := []
  importRouteFilters : List RawRule := []
deriving DecidableEq, Repr

/-- Parsed configuration JSON. -/
structure ConfData where
  vpnNetworkIntents : List VpnIntent
deriving DecidableEq, Repr

/-- The in-memory policy model `load_base_constraints` determines: the
router id list (in file order, duplicates kept as in `all_routers`), the
set of directed neighbor pairs asserted true, and the configuration
intents (from which RT membership and ACL chains are read). -/
structure PolicyModel where
  routerIds : List String
  truePairs : List (String × String)
  intents : List VpnIntent
deriving DecidableEq, Repr

/-- The `true_pairs` set: for each session whose two endpoints are both
declared routers, both orientations of the pair. -/
def buildTruePairs (sessions : List (String × String)) (ids : List String) :
    List (String × String) :=
  (sessions.filter (fun s => ids.contains s.1 && ids.contains s.2)).flatMap
    (fun s => [(s.1, s.2), (s.2, s.1)])

/-- Embeds `load_base_constraints` on already-parsed input (file reading
and JSON decoding are outside the core).  Note that it performs no
validation of ids, masks, prefixes, actions or sequence indexes. -/
def load_base_constraints (topo : TopoData) (conf : ConfData) : PolicyModel :=
  { routerIds := topo.nodes.map (fun n => n.id)
    truePairs := buildTruePairs (topo.ibgpPeMesh.getD []) (topo.nodes.map (fun n => n.id))
    intents := conf.vpnNetworkIntents }

/-- Python dict assignment in a loop keeps the last entry for a repeated
key: the intent looked up for a pe id is the last one carrying it. -/
def lookupLastIntent (intents : List VpnIntent) (pe : String) : Option VpnIntent :=
  (intents.filter (fun c => c.peId == pe)).getLast?

/-- Stable ascending sort of a filter list by `x.get('index', 0)`,
embedding Python `sorted(raw_filters, key=...)`. -/
def sortFilters (rs : List RawRule) : List RawRule :=
  rs.insertionSort (fun a b => a.index.getD 0 ≤ b.index.getD 0)

/-- Value the solver assertions pin down for `Ibgp_Neighbor` on a pair of
declared routers. -/
def PolicyModel.neighborB (m : PolicyModel) (a b : String) : Bool :=
  m.truePairs.contains (a, b)

/-- Value asserted for `Has_Import_RT` on a declared router and a declared
RT constant: membership in the configured import list, false for routers
without configuration. -/
def PolicyModel.importB (m : PolicyModel) (r t : String) : Bool :=
  match lookupLastIntent m.intents r with
  | some c => c.importRt.contains t
  | none => false

/-- Value asserted for `Has_Export_RT`, analogously. -/
def PolicyModel.exportB (m : PolicyModel) (r t : String) : Bool :=
  match lookupLastIntent m.intents r with
  | some c => c.exportRt.contains t
  | none => false

/-- The `acl_db` mapping: the sorted raw filter list for configured pe
ids, the empty chain for every other id. -/
def PolicyModel.aclDb (m : PolicyModel) (r : String) : List RawRule :=
  match lookupLastIntent m.intents r with
  | some c => sortFilters c.importRouteFilters
  | none => []

/-- The pe ids appearing in the configuration (`pe_conf_map` keys). -/
def PolicyModel.confPes (m : PolicyModel) : List String :=
  m.intents.map (fun c => c.peId)

/-- All RT strings mentioned in the configuration (`all_rt_strs`;
iteration order of the Python set is irrelevant, only membership is ever
used). -/
def PolicyModel.allRtStrs (m : PolicyModel) : List String :=
  (m.intents.flatMap (fun c => c.exportRt ++ c.importRt)).dedup

/-- The key set of `acl_db`: every configured pe id plus every declared
router without configuration. -/
def PolicyModel.aclKeys (m : PolicyModel) : List String :=
  m.confPes ++ m.routerIds.filter (fun r => !(m.confPes.contains r))

/-- A reachability query: source and destination router ids and the
target address string. -/
structure NetQuery where
  src : String
  dst : String
  ipStr : String
deriving DecidableEq, Repr

/- ===== Chain compiler: helper lemmas ===== -/

theorem build_cons_inv {r : RawRule} {rest : List RawRule} {e : BExpr}
    (h : build_acl_logic (r :: rest) = some e) :
    ∃ s en d restE, parseRuleHead r = some (s, en, d) ∧
      build_acl_logic rest = some restE ∧
      e = .bite (.band (.varGe (s : Int)) (.varLe (en : Int))) (.boolVal d) restE := by
  unfold build_acl_logic at h
  cases hp : parseRuleHead r with
  | none => rw [hp] at h; exact absurd h (by simp)
  | some t =>
    obtain ⟨s, en, d⟩ := t
    rw [hp] at h
    cases hb : build_acl_logic rest with
    | none => rw [hb] at h; exact absurd h (by simp)
    | some restE =>
      rw [hb] at h
      exact ⟨s, en, d, restE, rfl, rfl, (Option.some.inj h).symm⟩

theorem build_parses {l : List RawRule} {e : BExpr}
    (h : build_acl_logic l = some e) : ∀ r ∈ l, (parseRuleHead r).isSome := by
  induction l generalizing e with
  | nil => intro r hr; cases hr
  | cons a l ih =>
    obtain ⟨s, en, d, restE, hp, hb, _⟩ := build_cons_inv h
    intro r hr
    rcases List.mem_cons.mp hr with h1 | h1
    · subst h1; rw [hp]; rfl
    · exact ih hb r h1

theorem scanChain_cons {r : RawRule} {rest : List RawRule} {v : Int}
    {s en : Nat} {d : Bool} (hp : parseRuleHead r = some (s, en, d)) :
    scanChain (r :: rest) v =
      if (s : Int) ≤ v ∧ v ≤ (en : Int) then some d else scanChain rest v := by
  conv_lhs => unfold scanChain
  rw [hp]

theorem scanChain_cons_none {r : RawRule} {rest : List RawRule} {v : Int}
    (hp : parseRuleHead r = none) : scanChain (r :: rest) v = none := by
  unfold scanChain
  rw [hp]

theorem scanChain_build (rules : List RawRule) (e : BExpr)
    (hb : build_acl_logic rules = some e) (v : Int) :
    scanChain rules v = some (evalB v e) := by
  induction rules generalizing e with
  | nil =>
    unfold build_acl_logic at hb
    rw [← Option.some.inj hb]
    rfl
  | cons r rest ih =>
    obtain ⟨s, en, d, restE, hp, hrest, he⟩ := build_cons_inv hb
    subst he
    rw [scanChain_cons hp]
    by_cases hc : (s : Int) ≤ v ∧ v ≤ (en : Int)
    · rw [if_pos hc]
      simp [evalB, hc.1, hc.2]
    · rw [if_neg hc]
      have hcond : evalB v (.band (.varGe (s : Int)) (.varLe (en : Int))) =
          decide ((s : Int) ≤ v ∧ v ≤ (en : Int)) := (Bool.decide_and _ _).symm
      show scanChain rest v =
        some (if evalB v (.band (.varGe (s : Int)) (.varLe (en : Int))) = true then d
              else evalB v restE)
      rw [hcond, decide_eq_false hc]
      simpa using ih restE hrest

theorem scan_append_skip {pre : List RawRule} {v : Int}
    (hparse : ∀ r ∈ pre, (parseRuleHead r).isSome)
    (hmiss : ∀ r ∈ pre, ¬ matchesRule v r) (l : List RawRule) :
    scanChain (pre ++ l) v = scanChain l v := by
  induction pre with
  | nil => rfl
  | cons a pre ih =>
    have ha : (parseRuleHead a).isSome := hparse a (List.mem_cons_self a pre)
    obtain ⟨⟨s, en, d⟩, hp⟩ := Option.isSome_iff_exists.mp ha
    have hm : ¬ ((s : Int) ≤ v ∧ v ≤ (en : Int)) := by
      intro hc
      exact hmiss a (List.mem_cons_self a pre) (by rw [matchesRule, hp]; exact hc)
    show scanChain ((a :: pre) ++ l) v = scanChain l v
    rw [List.cons_append, scanChain_cons hp, if_neg hm]
    exact ih (fun r hr => hparse r (List.mem_cons_of_mem a hr))
      (fun r hr => hmiss r (List.mem_cons_of_mem a hr))

theorem scan_append_congr {pre : List RawRule} {v : Int}
    (hmatch : ∃ r ∈ pre, matchesRule v r) (l1 l2 : List RawRule) :
    scanChain (pre ++ l1) v = scanChain (pre ++ l2) v := by
  induction pre with
  | nil => obtain ⟨r, hr, _⟩ := hmatch; cases hr
  | cons a pre ih =>
    rw [List.cons_append, List.cons_append]
    cases hp : parseRuleHead a with
    | none => rw [scanChain_cons_none hp, scanChain_cons_none hp]
    | some t =>
      obtain ⟨s, en, d⟩ := t
      rw [scanChain_cons hp, scanChain_cons hp]
      by_cases hc : (s : Int) ≤ v ∧ v ≤ (en : Int)
      · rw [if_pos hc, if_pos hc]
      · rw [if_neg hc, if_neg hc]
        apply ih
        obtain ⟨r, hr, hmr⟩ := hmatch
        rcases List.mem_cons.mp hr with h1 | h1
        · subst h1
          rw [matchesRule, hp] at hmr
          exact absurd hmr hc
        · exact ⟨r, h1, hmr⟩

/- ===== Claims C2, C3, C4 ===== -/

/-- C2: for every ACL chain and every concrete address value, the nested
if-then-else expression produced by `build_acl_logic`, with the address
bound to that value, yields exactly the verdict of a linear first-match
scan of the chain: the first rule whose interval contains the address
determines the verdict, and with no matching rule the verdict is
not-denied. -/
theorem chain_compilation_correct (rules : List RawRule) (e : BExpr)
    (hb : build_acl_logic rules = some e) (v : Int) :
    scanChain rules v = some (evalB v e) :=
  scanChain_build rules e hb v

/-- Witness for C2 on a concrete one-rule deny chain and an address inside
the rule's interval. -/
theorem chain_compilation_correct_witness :
    scanChain [{ pfx := some "10.0.1.0/24", act := some "deny" }] 167772500 =
      some (evalB 167772500
        (.bite (.band (.varGe 167772416) (.varLe 167772671)) (.boolVal true) (.boolVal false))) :=
  chain_compilation_correct _ _ (by decide) 167772500

/-- C3: the empty ACL chain compiles to the constant false, and that
expression evaluates, for every address, to the not-denied verdict
(implicit permit-all for a router with no filter rules). -/
theorem empty_chain_default :
    build_acl_logic [] = some (BExpr.boolVal false) ∧
      ∀ v : Int, evalB v (BExpr.boolVal false) = false :=
  ⟨rfl, fun _ => rfl⟩

/-- C4: swapping two adjacently-ordered overlapping rules with different
actions changes the compiled chain's verdict exactly at the addresses in
the intersection of the two rules' intervals that no earlier rule matches,
and at no other address. -/
theorem order_sensitivity (pre post : List RawRule) (r1 r2 : RawRule)
    (s1 e1 s2 e2 : Nat) (d1 d2 : Bool)
    (hp1 : parseRuleHead r1 = some (s1, e1, d1))
    (hp2 : parseRuleHead r2 = some (s2, e2, d2))
    (hd : d1 ≠ d2) (E1 E2 : BExpr)
    (hb1 : build_acl_logic (pre ++ r1 :: r2 :: post) = some E1)
    (hb2 : build_acl_logic (pre ++ r2 :: r1 :: post) = some E2)
    (v : Int) :
    evalB v E1 ≠ evalB v E2 ↔
      (((s1 : Int) ≤ v ∧ v ≤ (e1 : Int)) ∧ ((s2 : Int) ≤ v ∧ v ≤ (e2 : Int)) ∧
        ∀ r ∈ pre, ¬ matchesRule v r) := by
  have h1 := scanChain_build _ _ hb1 v
  have h2 := scanChain_build _ _ hb2 v
  by_cases hpre : ∀ r ∈ pre, ¬ matchesRule v r
  · have hparse : ∀ r ∈ pre, (parseRuleHead r).isSome := fun r hr =>
      build_parses hb1 r (List.mem_append_left _ hr)
    rw [scan_append_skip hparse hpre] at h1
    rw [scan_append_skip hparse hpre] at h2
    by_cases hin1 : (s1 : Int) ≤ v ∧ v ≤ (e1 : Int) <;>
      by_cases hin2 : (s2 : Int) ≤ v ∧ v ≤ (e2 : Int)
    · rw [scanChain_cons hp1, if_pos hin1] at h1
      rw [scanChain_cons hp2, if_pos hin2] at h2
      have he1 : evalB v E1 = d1 := (Option.some.inj h1).symm
      have he2 : evalB v E2 = d2 := (Option.some.inj h2).symm
      constructor
      · exact fun _ => ⟨hin1, hin2, hpre⟩
      · intro _
        rw [he1, he2]
        exact hd
    · rw [scanChain_cons hp1, if_pos hin1] at h1
      rw [scanChain_cons hp2, if_neg hin2, scanChain_cons hp1, if_pos hin1] at h2
      have he1 : evalB v E1 = d1 := (Option.some.inj h1).symm
      have he2 : evalB v E2 = d1 := (Option.some.inj h2).symm
      apply iff_of_false
      · intro h
        rw [he1, he2] at h
        exact h rfl
      · rintro ⟨_, hx, _⟩
        exact hin2 hx
    · rw [scanChain_cons hp1, if_neg hin1, scanChain_cons hp2, if_pos hin2] at h1
      rw [scanChain_cons hp2, if_pos hin2] at h2
      have he1 : evalB v E1 = d2 := (Option.some.inj h1).symm
      have he2 : evalB v E2 = d2 := (Option.some.inj h2).symm
      apply iff_of_false
      · intro h
        rw [he1, he2] at h
        exact h rfl
      · rintro ⟨hx, _, _⟩
        exact hin1 hx
    · rw [scanChain_cons hp1, if_neg hin1, scanChain_cons hp2, if_neg hin2] at h1
      rw [scanChain_cons hp2, if_neg hin2, scanChain_cons hp1, if_neg hin1] at h2
      have heq : evalB v E1 = evalB v E2 := Option.some.inj (h1.symm.trans h2)
      apply iff_of_false
      · exact fun h => h heq
      · rintro ⟨hx, _, _⟩
        exact hin1 hx
  · push_neg at hpre
    have hcongr := scan_append_congr hpre (r1 :: r2 :: post) (r2 :: r1 :: post)
    rw [h1, h2] at hcongr
    have heq : evalB v E1 = evalB v E2 := Option.some.inj hcongr
    apply iff_of_false
    · exact fun h => h heq
    · rintro ⟨_, _, hall⟩
      obtain ⟨r, hr, hm⟩ := hpre
      exact hall r hr hm

/-- Witness for C4: a broad permit rule and a narrower deny rule, swapped,
with an address in the overlap. -/
theorem order_sensitivity_witness :
    evalB 167772500
        (.bite (.band (.varGe 167772160) (.varLe 184549375)) (.boolVal false)
          (.bite (.band (.varGe 167772416) (.varLe 167772671)) (.boolVal true)
            (.boolVal false))) ≠
      evalB 167772500
        (.bite (.band (.varGe 167772416) (.varLe 167772671)) (.boolVal true)
          (.bite (.band (.varGe 167772160) (.varLe 184549375)) (.boolVal false)
            (.boolVal false))) ↔
      (((167772160 : Int) ≤ 167772500 ∧ (167772500 : Int) ≤ 184549375) ∧
        ((167772416 : Int) ≤ 167772500 ∧ (167772500 : Int) ≤ 167772671) ∧
        ∀ r ∈ ([] : List RawRule), ¬ matchesRule 167772500 r) :=
  order_sensitivity [] []
    { pfx := some "10.0.0.0/8", act := some "permit" }
    { pfx := some "10.0.1.0/24", act := some "deny" }
    167772160 184549375 167772416 167772671 false true
    (by decide) (by decide) (by decide) _ _ (by decide) (by decide) 167772500

/- ===== Interval arithmetic (claim C9) ===== -/

theorem parseOctet_le {s : String} {n : Nat} (h : parseOctet s = some n) : n ≤ 255 := by
  unfold parseOctet at h
  split at h
  · exact absurd h (by simp)
  · split_ifs at h
    all_goals simp_all

theorem ipv4_to_int_lt {s : String} {n : Nat} (h : ipv4_to_int s = some n) :
    n < 4294967296 := by
  unfold ipv4_to_int at h
  rcases hsp : strSplit '.' s with _ | ⟨a, _ | ⟨b, _ | ⟨c, _ | ⟨d, _ | ⟨e, tl⟩⟩⟩⟩⟩ <;>
    rw [hsp] at h
  all_goals try cases h
  dsimp only at h
  rcases hA : parseOctet a with _ | na <;> rw [hA] at h
  · cases h
  rcases hB : parseOctet b with _ | nb <;> rw [hB] at h
  · cases h
  rcases hC : parseOctet c with _ | nc <;> rw [hC] at h
  · cases h
  rcases hD : parseOctet d with _ | nd <;> rw [hD] at h
  · cases h
  have la := parseOctet_le hA
  have lb := parseOctet_le hB
  have lc := parseOctet_le hC
  have ld := parseOctet_le hD
  have h' : (some (((na * 256 + nb) * 256 + nc) * 256 + nd) : Option Nat) = some n := h
  have hn : ((na * 256 + nb) * 256 + nc) * 256 + nd = n := Option.some.inj h'
  omega

theorem ip_str_to_int_lt {s : String} {n : Nat} (h : ip_str_to_int s = some n) :
    n < 4294967296 := by
  unfold ip_str_to_int at h
  exact ipv4_to_int_lt h

theorem mask_bit_eq (k : Nat) (hk : k ≤ 32) :
    ((0xFFFFFFFF <<< k) &&& 0xFFFFFFFF : Nat) = 2 ^ 32 - 2 ^ k := by
  have h2k : (2 : Nat) ^ k ≤ 2 ^ 32 := Nat.pow_le_pow_right (by norm_num) hk
  have h1 : (1 : Nat) ≤ 2 ^ k := Nat.one_le_two_pow
  have h132 : (1 : Nat) ≤ 2 ^ 32 := Nat.one_le_two_pow
  have hx : (0xFFFFFFFF : Nat) = 2 ^ 32 - 1 := by norm_num
  rw [hx, Nat.shiftLeft_eq, Nat.and_pow_two_sub_one_eq_mod]
  have hsplit : (2 ^ 32 - 1) * 2 ^ k = (2 ^ k - 1) * 2 ^ 32 + (2 ^ 32 - 2 ^ k) := by
    zify [h1, h2k, h132]
    ring
  rw [hsplit, Nat.mul_comm (2 ^ k - 1) (2 ^ 32), Nat.mul_add_mod]
  exact Nat.mod_eq_of_lt (by omega)

theorem land_mask (x k : Nat) (hx : x < 2 ^ 32) (hk : k ≤ 32) :
    x &&& (2 ^ 32 - 2 ^ k) = x / 2 ^ k * 2 ^ k := by
  have hmask : (2 : Nat) ^ 32 - 2 ^ k = (2 ^ (32 - k) - 1) <<< k := by
    rw [Nat.shiftLeft_eq, Nat.sub_mul, one_mul, ← pow_add]
    congr 2
    omega
  have hdiv : x / 2 ^ k * 2 ^ k = (x >>> k) <<< k := by
    rw [Nat.shiftRight_eq_div_pow, Nat.shiftLeft_eq]
  rw [hmask, hdiv]
  apply Nat.eq_of_testBit_eq
  intro j
  rw [Nat.testBit_land, Nat.testBit_shiftLeft, Nat.testBit_shiftLeft, Nat.testBit_shiftRight,
    Nat.testBit_two_pow_sub_one]
  by_cases hkj : k ≤ j
  · have hj : k + (j - k) = j := by omega
    rw [hj]
    by_cases hj32 : j < 32
    · have hlt : j - k < 32 - k := by omega
      simp [hkj, hlt]
    · have hxj : x.testBit j = false :=
        Nat.testBit_lt_two_pow
          (lt_of_lt_of_le hx (Nat.pow_le_pow_right (by norm_num) (by omega)))
      have hge : ¬ (j - k < 32 - k) := by omega
      simp [hkj, hxj, hge]
  · simp [hkj]

theorem get_ip_interval_eval (s : String) (ip : Nat) (m : Nat)
    (hs : ip_str_to_int s = some ip) (hm : m ≤ 32) :
    get_ip_interval s (m : Int) =
      some (ip / 2 ^ (32 - m) * 2 ^ (32 - m),
            ip / 2 ^ (32 - m) * 2 ^ (32 - m) + 2 ^ (32 - m) - 1) := by
  have hlt : ip < 4294967296 := ip_str_to_int_lt hs
  have h32 : (2 : Nat) ^ 32 = 4294967296 := by norm_num
  have hlt2 : ip < 2 ^ 32 := by omega
  have hno : ¬ ((m : Int) > 32) := by omega
  have hk : ((32 : Int) - (m : Int)).toNat = 32 - m := by omega
  simp only [get_ip_interval, hs]
  rw [if_neg hno, hk, mask_bit_eq (32 - m) (by omega),
    land_mask ip (32 - m) hlt2 (by omega), Nat.one_shiftLeft]

/-- C9: for every prefix string that parses and every mask length between
0 and 32, the computed rule interval is non-empty, fully contained in the
32-bit address space, of the stated masked-prefix shape, and contains
exactly the 32-bit addresses whose top `m` bits agree with the prefix. -/
theorem interval_correct (s : String) (ip : Nat) (m : Nat)
    (hs : ip_str_to_int s = some ip) (hm : m ≤ 32) :
    ∃ st en, get_ip_interval s (m : Int) = some (st, en) ∧
      st = ip / 2 ^ (32 - m) * 2 ^ (32 - m) ∧
      en = st + 2 ^ (32 - m) - 1 ∧
      st ≤ en ∧ en ≤ 2 ^ 32 - 1 ∧
      ∀ a : Nat, a < 2 ^ 32 →
        ((st ≤ a ∧ a ≤ en) ↔ a / 2 ^ (32 - m) = ip / 2 ^ (32 - m)) := by
  have hlt : ip < 4294967296 := ip_str_to_int_lt hs
  have h32 : (2 : Nat) ^ 32 = 4294967296 := by norm_num
  set p : Nat := 2 ^ (32 - m) with hp
  have hp1 : 1 ≤ p := Nat.one_le_two_pow
  set st : Nat := ip / p * p with hst
  have hple : st ≤ ip := Nat.div_mul_le_self ip p
  have hdlt : ip / p < 2 ^ m := by
    apply Nat.div_lt_of_lt_mul
    have hpm : p * 2 ^ m = 2 ^ 32 := by
      rw [hp, ← pow_add]
      congr 1
      omega
    rw [hpm, h32]
    exact hlt
  have hub : st + p ≤ 2 ^ 32 := by
    have hmul : (ip / p + 1) * p ≤ 2 ^ m * p := Nat.mul_le_mul_right p (by omega)
    have hpm2 : 2 ^ m * p = 2 ^ 32 := by
      rw [hp, ← pow_add]
      congr 1
      omega
    calc st + p = (ip / p + 1) * p := by rw [hst, Nat.add_mul, one_mul]
      _ ≤ 2 ^ m * p := hmul
      _ = 2 ^ 32 := hpm2
  refine ⟨st, st + p - 1, ?_, hst, rfl, by omega, by omega, ?_⟩
  · rw [hst, hp]
    exact get_ip_interval_eval s ip m hs hm
  · intro a ha
    have hale : a / p * p ≤ a := Nat.div_mul_le_self a p
    have halt : a < a / p * p + p := by
      conv_lhs => rw [← Nat.div_add_mod' a p]
      exact Nat.add_lt_add_left (Nat.mod_lt a (show 0 < p by omega)) _
    constructor
    · rintro ⟨h1, h2⟩
      apply Nat.div_eq_of_lt_le
      · exact h1
      · rw [Nat.add_mul, one_mul]
        have h0 : 0 < ip / p * p + p :=
          Nat.lt_of_lt_of_le (show 0 < p by omega) (Nat.le_add_left p _)
        exact Nat.lt_of_le_of_lt h2 (Nat.sub_lt h0 Nat.one_pos)
    · intro h
      constructor
      · rw [hst, ← h]
        exact Nat.div_mul_le_self a p
      · rw [h] at halt
        exact Nat.le_sub_one_of_lt halt

/-- Witness for C9 on the concrete prefix 10.0.1.0 with mask length 24. -/
theorem interval_correct_witness :
    ∃ st en, get_ip_interval "10.0.1.0" ((24 : Nat) : Int) = some (st, en) ∧
      st = 167772416 / 2 ^ (32 - 24) * 2 ^ (32 - 24) ∧
      en = st + 2 ^ (32 - 24) - 1 ∧
      st ≤ en ∧ en ≤ 2 ^ 32 - 1 ∧
      ∀ a : Nat, a < 2 ^ 32 →
        ((st ≤ a ∧ a ≤ en) ↔ a / 2 ^ (32 - 24) = 167772416 / 2 ^ (32 - 24)) :=
  interval_correct "10.0.1.0" 167772416 24 (by decide) (by decide)

/- ===== Rule-field defaulting (claim C10) ===== -/

theorem parseRuleHead_congr {r1 r2 : RawRule}
    (hpm : rulePfxMask r1 = rulePfxMask r2) (hact : r1.act = r2.act) :
    parseRuleHead r1 = parseRuleHead r2 := by
  unfold parseRuleHead
  rw [hpm, hact]

theorem parseRuleHead_deny_flag {r : RawRule} {st en : Nat} {d : Bool}
    (h : parseRuleHead r = some (st, en, d)) :
    d = (r.act.getD "permit" == "deny") := by
  unfold parseRuleHead at h
  rcases hpm : rulePfxMask r with _ | ⟨p, mk⟩ <;> rw [hpm] at h
  · cases h
  · dsimp only at h
    rcases hgi : get_ip_interval p mk with _ | ⟨s', e'⟩ <;> rw [hgi] at h
    · cases h
    · have h2 : (some (s', e', ((r.act.getD "permit") == "deny")) :
          Option (Nat × Nat × Bool)) = some (st, en, d) := h
      have h3 := Option.some.inj h2
      exact (congrArg (fun t => t.2.2) h3).symm

/-- C10: the chain compiler tolerates partially specified rules with fixed
defaults: a missing prefix field is treated as `0.0.0.0`; when the prefix
carries a slash the mask field is ignored in favour of the part after the
slash; a missing mask with a slash-free prefix defaults to 32; a missing
or non-`deny` action is treated as permit; and a rule with every field
absent compiles without failing. -/
theorem rule_field_defaults :
    (∀ r : RawRule, r.pfx = none →
      parseRuleHead r = parseRuleHead { r with pfx := some "0.0.0.0" }) ∧
    (∀ (r : RawRule) (s : String), r.pfx = some s → s.toList.contains '/' = true →
      ∀ mk : Option Int,
        parseRuleHead { r with mask := mk } = parseRuleHead { r with mask := none }) ∧
    (∀ (r : RawRule) (s : String), r.pfx = some s → s.toList.contains '/' = false →
      r.mask = none → parseRuleHead r = parseRuleHead { r with mask := some 32 }) ∧
    (∀ (r : RawRule) (st en : Nat) (d : Bool), parseRuleHead r = some (st, en, d) →
      r.act ≠ some "deny" → d = false) ∧
    parseRuleHead {} = some (0, 0, false) := by
  refine ⟨?_, ?_, ?_, ?_, by decide⟩
  · intro r h
    apply parseRuleHead_congr
    · simp only [rulePfxMask, h, Option.getD_none, Option.getD_some]
    · rfl
  · intro r s hs hc mk
    apply parseRuleHead_congr
    · simp only [rulePfxMask, hs, hc, Option.getD_some, if_true]
    · rfl
  · intro r s hs hc hm
    apply parseRuleHead_congr
    · simp only [rulePfxMask, hs, hm, hc, Option.getD_some, Option.getD_none,
        Bool.false_eq_true, if_false]
    · rfl
  · intro r st en d h hact
    rw [parseRuleHead_deny_flag h]
    cases hA : r.act with
    | none => rfl
    | some a =>
      have hne : a ≠ "deny" := fun he => hact (by rw [hA, he])
      exact beq_eq_false_iff_ne.mpr hne

/-- Witness for C10, instantiating each defaulting clause at a concrete
rule. -/
theorem rule_field_defaults_witness :
    (parseRuleHead { index := some 1 } =
      parseRuleHead { index := some 1, pfx := some "0.0.0.0" }) ∧
    (parseRuleHead { pfx := some "10.0.0.0/8", mask := some 16 } =
      parseRuleHead { pfx := some "10.0.0.0/8" }) ∧
    (parseRuleHead { pfx := some "10.0.0.0" } =
      parseRuleHead { pfx := some "10.0.0.0", mask := some 32 }) ∧
    (false = false) :=
  ⟨rule_field_defaults.1 { index := some 1 } rfl,
   rule_field_defaults.2.1 { pfx := some "10.0.0.0/8" } "10.0.0.0/8" rfl (by decide) (some 16),
   rule_field_defaults.2.2.1 { pfx := some "10.0.0.0" } "10.0.0.0" rfl (by decide) rfl,
   rule_field_defaults.2.2.2.1 { pfx := some "10.0.0.0/8", act := some "block" }
     167772160 184549375 false (by decide) (by decide)⟩

/- ===== Solver-protocol model (claims C6, C7) ===== -/

/-- Verdict returned by the satisfiability engine. -/
inductive SolverVerdict where
  | sat
  | unsat
  | unknown
deriving DecidableEq, Repr

/-- The formulas a query evaluation asserts inside its scope: the
target-address equality, and the propagation conjunction (in monolithic
mode referencing the global denied predicate, in hybrid mode carrying the
inlined compiled chain). -/
inductive ZFormula where
  | targetEq (n : Int)
  | propagateMono (src dst : String)
  | propagateHyb (src dst : String) (e : BExpr)
deriving DecidableEq, Repr

/-- The solver's assertion state: the permanent assertion list plus a
stack of scopes (innermost first), as managed by push/add/pop. -/
structure SolverState where
  base : List ZFormula
  stack : List (List ZFormula)
deriving DecidableEq, Repr

/-- Embeds `s.push()`: opens a fresh scope. -/
def SolverState.push (st : SolverState) : SolverState :=
  { st with stack := [] :: st.stack }

/-- Embeds `s.add(f)`: asserts into the innermost scope, or permanently
when no scope is open. -/
def SolverState.addF (st : SolverState) (f : ZFormula) : SolverState :=
  match st.stack with
  | [] => { st with base := f :: st.base }
  | s :: rest => { st with stack := (f :: s) :: rest }

/-- Embeds `s.pop()`: discards the innermost scope. -/
def SolverState.popF (st : SolverState) : SolverState :=
  { st with stack := st.stack.tail }

/-- Everything currently asserted, scoped and permanent. -/
def SolverState.allAssertions (st : SolverState) : List ZFormula :=
  st.stack.flatten ++ st.base

/-- Embeds `check_mono`: push, look both router ids up (`KeyError` when
either is absent — note the scope is already open), parse the address
(`AddressValueError` possible), assert the address equality and the
propagation formula, run the check, pop.  The satisfiability engine itself
is external: it is abstracted as the function `checkFn` of the asserted
formulas.  The Python function prints the verdict and returns the elapsed
time; the verdict is the observable modelled here. -/
def check_mono (checkFn : List ZFormula → SolverVerdict) (m : PolicyModel)
    (q : NetQuery) (st : SolverState) : Except String SolverVerdict × SolverState :=
  let st1 := st.push
  if (m.routerIds.contains q.src && m.routerIds.contains q.dst) = true then
    match ip_str_to_int q.ipStr with
    | none => (.error "AddressValueError", st1)
    | some n =>
      let st2 := st1.addF (.targetEq (n : Int))
      let st3 := st2.addF (.propagateMono q.src q.dst)
      let res := checkFn st3.allAssertions
      (.ok res, st3.popF)
  else (.error "KeyError", st1)

/-- Embeds `check_hybrid`: like `check_mono` but compiling the destination
router's chain at query time and inlining it (a compilation failure raises
after the address equality has been asserted). -/
def check_hybrid (checkFn : List ZFormula → SolverVerdict) (m : PolicyModel)
    (q : NetQuery) (st : SolverState) : Except String SolverVerdict × SolverState :=
  let st1 := st.push
  if (m.routerIds.contains q.src && m.routerIds.contains q.dst) = true then
    match ip_str_to_int q.ipStr with
    | none => (.error "AddressValueError", st1)
    | some n =>
      let st2 := st1.addF (.targetEq (n : Int))
      match build_acl_logic (m.aclDb q.dst) with
      | none => (.error "ValueError", st2)
      | some e =>
        let st3 := st2.addF (.propagateHyb q.src q.dst e)
        let res := checkFn st3.allAssertions
        (.ok res, st3.popF)
  else (.error "KeyError", st1)

/-- Sequential evaluation of a query list in monolithic mode, as the
benchmark driver does; an uncaught exception aborts the remaining
queries. -/
def run_mono_queries (checkFn : List ZFormula → SolverVerdict) (m : PolicyModel) :
    List NetQuery → SolverState → Except String (List SolverVerdict × SolverState)
  | [], st => .ok ([], st)
  | q :: rest, st =>
    match check_mono checkFn m q st with
    | (Except.ok v, st1) =>
      match run_mono_queries checkFn m rest st1 with
      | .ok (vs, st2) => .ok (v :: vs, st2)
      | .error e => .error e
    | (Except.error e, _) => .error e

theorem check_mono_restores (checkFn : List ZFormula → SolverVerdict)
    (m : PolicyModel) (q : NetQuery) (st : SolverState)
    (hq : (m.routerIds.contains q.src && m.routerIds.contains q.dst) = true)
    (hip : (ip_str_to_int q.ipStr).isSome = true) :
    (check_mono checkFn m q st).2 = st := by
  obtain ⟨n, hn⟩ := Option.isSome_iff_exists.mp hip
  simp only [check_mono, hq, hn, if_true]
  rfl

theorem check_hybrid_restores (checkFn : List ZFormula → SolverVerdict)
    (m : PolicyModel) (q : NetQuery) (st : SolverState)
    (hq : (m.routerIds.contains q.src && m.routerIds.contains q.dst) = true)
    (hip : (ip_str_to_int q.ipStr).isSome = true)
    (hb : (build_acl_logic (m.aclDb q.dst)).isSome = true) :
    (check_hybrid checkFn m q st).2 = st := by
  obtain ⟨n, hn⟩ := Option.isSome_iff_exists.mp hip
  obtain ⟨e, he⟩ := Option.isSome_iff_exists.mp hb
  simp only [check_hybrid, hq, hn, he, if_true]
  rfl

/- ===== Concrete reference network (used by several witnesses) ===== -/

/-- The reference topology: two PE routers with one iBGP session. -/
def topoEx : TopoData :=
  { nodes := [{ id := "PE1" }, { id := "PE2" }]
    ibgpPeMesh := some [("PE1", "PE2")] }

/-- The reference configuration: both PEs share an RT; PE1 filters permit
192.168.1.0/24, deny 10.0.1.0/24, then permit 10.0.0.0/8. -/
def confEx : ConfData :=
  { vpnNetworkIntents :=
      [{ peId := "PE1", exportRt := ["100:1"], importRt := ["100:1"],
         importRouteFilters :=
           [{ index := some 10, pfx := some "192.168.1.0/24", act := some "permit" },
            { index := some 20, pfx := some "10.0.1.0/24", act := some "deny" },
            { index := some 30, pfx := some "10.0.0.0/8", act := some "permit" }] },
       { peId := "PE2", exportRt := ["100:1"], importRt := ["100:1"] }] }

/-- The loaded reference model. -/
def mEx : PolicyModel := load_base_constraints topoEx confEx

/-- The empty solver state both benchmark modes start their query phase
from (the base constraints are irrelevant to the protocol theorems). -/
def st0 : SolverState := { base := [], stack := [] }

/- ===== Claims C6 and C7 ===== -/

/-- C7: with both routers present (and, for the hybrid mode, a compilable
destination chain), each query evaluation is a push/assert/check/pop
sequence that returns the solver state exactly to what it was before the
call, for every outcome of the check; consequently evaluation is
idempotent and order-insensitive: the same query twice gives the same
verdict, and the A, B, A pattern gives both A invocations the verdict of
running A alone. -/
theorem scope_isolation_idempotent
    (checkFn : List ZFormula → SolverVerdict) (m : PolicyModel)
    (qA qB : NetQuery) (st : SolverState)
    (hA : (m.routerIds.contains qA.src && m.routerIds.contains qA.dst) = true)
    (hipA : (ip_str_to_int qA.ipStr).isSome = true)
    (hB : (m.routerIds.contains qB.src && m.routerIds.contains qB.dst) = true)
    (hipB : (ip_str_to_int qB.ipStr).isSome = true)
    (hbA : (build_acl_logic (m.aclDb qA.dst)).isSome = true)
    (hbB : (build_acl_logic (m.aclDb qB.dst)).isSome = true) :
    (check_mono checkFn m qA st).2 = st ∧
    (check_mono checkFn m qA ((check_mono checkFn m qA st).2)).1 =
      (check_mono checkFn m qA st).1 ∧
    (check_mono checkFn m qA
        ((check_mono checkFn m qB ((check_mono checkFn m qA st).2)).2)).1 =
      (check_mono checkFn m qA st).1 ∧
    (check_hybrid checkFn m qA st).2 = st ∧
    (check_hybrid checkFn m qA ((check_hybrid checkFn m qA st).2)).1 =
      (check_hybrid checkFn m qA st).1 ∧
    (check_hybrid checkFn m qA
        ((check_hybrid checkFn m qB ((check_hybrid checkFn m qA st).2)).2)).1 =
      (check_hybrid checkFn m qA st).1 := by
  have rA := check_mono_restores checkFn m qA st hA hipA
  have rB := check_mono_restores checkFn m qB st hB hipB
  have sA := check_hybrid_restores checkFn m qA st hA hipA hbA
  have sB := check_hybrid_restores checkFn m qB st hB hipB hbB
  refine ⟨rA, by rw [rA], by rw [rA, rB], sA, by rw [sA], by rw [sA, sB]⟩

/-- Witness for C7 on the reference model, two valid queries, and an
arbitrary fixed engine answer. -/
theorem scope_isolation_idempotent_witness :
    (check_mono (fun _ => SolverVerdict.unknown) mEx
        { src := "PE1", dst := "PE2", ipStr := "192.168.1.1" } st0).2 = st0 ∧
    (check_mono (fun _ => SolverVerdict.unknown) mEx
        { src := "PE1", dst := "PE2", ipStr := "192.168.1.1" }
        ((check_mono (fun _ => SolverVerdict.unknown) mEx
          { src := "PE1", dst := "PE2", ipStr := "192.168.1.1" } st0).2)).1 =
      (check_mono (fun _ => SolverVerdict.unknown) mEx
        { src := "PE1", dst := "PE2", ipStr := "192.168.1.1" } st0).1 ∧
    (check_mono (fun _ => SolverVerdict.unknown) mEx
        { src := "PE1", dst := "PE2", ipStr := "192.168.1.1" }
        ((check_mono (fun _ => SolverVerdict.unknown) mEx
          { src := "PE2", dst := "PE1", ipStr := "10.0.1.100" }
          ((check_mono (fun _ => SolverVerdict.unknown) mEx
            { src := "PE1", dst := "PE2", ipStr := "192.168.1.1" } st0).2)).2)).1 =
      (check_mono (fun _ => SolverVerdict.unknown) mEx
        { src := "PE1", dst := "PE2", ipStr := "192.168.1.1" } st0).1 ∧
    (check_hybrid (fun _ => SolverVerdict.unknown) mEx
        { src := "PE1", dst := "PE2", ipStr := "192.168.1.1" } st0).2 = st0 ∧
    (check_hybrid (fun _ => SolverVerdict.unknown) mEx
        { src := "PE1", dst := "PE2", ipStr := "192.168.1.1" }
        ((check_hybrid (fun _ => SolverVerdict.unknown) mEx
          { src := "PE1", dst := "PE2", ipStr := "192.168.1.1" } st0).2)).1 =
      (check_hybrid (fun _ => SolverVerdict.unknown) mEx
        { src := "PE1", dst := "PE2", ipStr := "192.168.1.1" } st0).1 ∧
    (check_hybrid (fun _ => SolverVerdict.unknown) mEx
        { src := "PE1", dst := "PE2", ipStr := "192.168.1.1" }
        ((check_hybrid (fun _ => SolverVerdict.unknown) mEx
          { src := "PE2", dst := "PE1", ipStr := "10.0.1.100" }
          ((check_hybrid (fun _ => SolverVerdict.unknown) mEx
            { src := "PE1", dst := "PE2", ipStr := "192.168.1.1" } st0).2)).2)).1 =
      (check_hybrid (fun _ => SolverVerdict.unknown) mEx
        { src := "PE1", dst := "PE2", ipStr := "192.168.1.1" } st0).1 :=
  scope_isolation_idempotent (fun _ => SolverVerdict.unknown) mEx
    { src := "PE1", dst := "PE2", ipStr := "192.168.1.1" }
    { src := "PE2", dst := "PE1", ipStr := "10.0.1.100" } st0
    (by decide) (by decide) (by decide) (by decide) (by decide) (by decide)

/-- C6 counterexample: on the reference model, a query whose destination
router is absent raises `KeyError` only after a scope has already been
opened (the returned state is the pushed state, different from the input
state), and the error aborts the remaining queries of the run — contrary
to the claim that the failure happens before any solver interaction and
does not end the session. -/
theorem query_target_missing_counterexample :
    (check_mono (fun _ => SolverVerdict.sat) mEx
        { src := "PE1", dst := "PE9", ipStr := "10.0.0.1" } st0).1 =
      Except.error "KeyError" ∧
    (check_mono (fun _ => SolverVerdict.sat) mEx
        { src := "PE1", dst := "PE9", ipStr := "10.0.0.1" } st0).2 = st0.push ∧
    st0.push ≠ st0 ∧
    run_mono_queries (fun _ => SolverVerdict.sat) mEx
        [{ src := "PE1", dst := "PE9", ipStr := "10.0.0.1" },
         { src := "PE1", dst := "PE2", ipStr := "192.168.1.1" }] st0 =
      Except.error "KeyError" :=
  ⟨rfl, rfl, by decide, rfl⟩

/-- C6 amended: when either router id of a query is absent from the model,
both evaluators raise `KeyError` — but only after opening a solver scope
(the returned state is the pushed input state, so the scope leaks), and
the error propagates, aborting the remaining queries of the run. -/
theorem missing_router_behavior
    (checkFn : List ZFormula → SolverVerdict) (m : PolicyModel)
    (q : NetQuery) (st : SolverState)
    (hq : (m.routerIds.contains q.src && m.routerIds.contains q.dst) = false) :
    check_mono checkFn m q st = (.error "KeyError", st.push) ∧
    check_hybrid checkFn m q st = (.error "KeyError", st.push) ∧
    st.push ≠ st ∧
    ∀ rest, run_mono_queries checkFn m (q :: rest) st = .error "KeyError" := by
  have h1 : check_mono checkFn m q st = (.error "KeyError", st.push) := by
    simp only [check_mono, hq, Bool.false_eq_true, if_false]
  refine ⟨h1, ?_, ?_, ?_⟩
  · simp only [check_hybrid, hq, Bool.false_eq_true, if_false]
  · intro h
    have := congrArg (fun s => s.stack.length) h
    simp only [SolverState.push, List.length_cons] at this
    omega
  · intro rest
    simp only [run_mono_queries, h1]

/-- Witness for C6's amended statement at a concrete missing-router
query. -/
theorem missing_router_behavior_witness :
    check_mono (fun _ => SolverVerdict.sat) mEx
        { src := "PE9", dst := "PE1", ipStr := "10.0.0.1" } st0 =
      (.error "KeyError", st0.push) ∧
    check_hybrid (fun _ => SolverVerdict.sat) mEx
        { src := "PE9", dst := "PE1", ipStr := "10.0.0.1" } st0 =
      (.error "KeyError", st0.push) ∧
    st0.push ≠ st0 ∧
    ∀ rest, run_mono_queries (fun _ => SolverVerdict.sat) mEx
        ({ src := "PE9", dst := "PE1", ipStr := "10.0.0.1" } :: rest) st0 =
      .error "KeyError" :=
  missing_router_behavior (fun _ => SolverVerdict.sat) mEx
    { src := "PE9", dst := "PE1", ipStr := "10.0.0.1" } st0 (by decide)

/- ===== Model relations (claim C8) ===== -/

theorem mem_buildTruePairs {sess : List (String × String)} {ids : List String}
    {a b : String} :
    (a, b) ∈ buildTruePairs sess ids ↔
      ∃ p ∈ sess, (p = (a, b) ∨ p = (b, a)) ∧ a ∈ ids ∧ b ∈ ids := by
  unfold buildTruePairs
  simp only [List.mem_flatMap, List.mem_filter, Bool.and_eq_true, List.mem_cons,
    List.not_mem_nil, or_false, List.elem_iff]
  constructor
  · rintro ⟨p, ⟨hps, hc1, hc2⟩, he | he⟩
    · obtain ⟨ha, hb⟩ := Prod.mk.injEq .. ▸ he
      exact ⟨p, hps, Or.inl (by rw [ha, hb]), by rw [ha]; exact hc1,
        by rw [hb]; exact hc2⟩
    · obtain ⟨ha, hb⟩ := Prod.mk.injEq .. ▸ he
      exact ⟨p, hps, Or.inr (by rw [ha, hb]), by rw [ha]; exact hc2,
        by rw [hb]; exact hc1⟩
  · rintro ⟨p, hps, hor, ha, hb⟩
    rcases hor with h | h <;> subst h
    · exact ⟨(a, b), ⟨hps, ha, hb⟩, Or.inl rfl⟩
    · exact ⟨(b, a), ⟨hps, hb, ha⟩, Or.inr rfl⟩

theorem lookupLastIntent_none {intents : List VpnIntent} {r : String}
    (h : r ∉ intents.map (fun c => c.peId)) : lookupLastIntent intents r = none := by
  unfold lookupLastIntent
  have hf : intents.filter (fun c => c.peId == r) = [] := by
    rw [List.filter_eq_nil_iff]
    intro c hc hbeq
    exact h (List.mem_map.mpr ⟨c, hc, eq_of_beq hbeq⟩)
  rw [hf]
  rfl

/-- C8: in the model `load_base_constraints` pins down, the neighbor
relation is symmetric; it holds on a pair exactly when a declared session
connects the two declared routers (so every other pair of the full
product defaults to false); and every router absent from the VPN
configuration has the empty ACL chain and false membership in every RT
relation, imported and exported alike. -/
theorem model_relations (topo : TopoData) (conf : ConfData) :
    (∀ a b, (load_base_constraints topo conf).neighborB a b =
      (load_base_constraints topo conf).neighborB b a) ∧
    (∀ a b, (load_base_constraints topo conf).neighborB a b = true ↔
      ∃ p ∈ topo.ibgpPeMesh.getD [], (p = (a, b) ∨ p = (b, a)) ∧
        a ∈ (load_base_constraints topo conf).routerIds ∧
        b ∈ (load_base_constraints topo conf).routerIds) ∧
    (∀ r, r ∉ (load_base_constraints topo conf).confPes →
      (load_base_constraints topo conf).aclDb r = [] ∧
      ∀ t, (load_base_constraints topo conf).importB r t = false ∧
        (load_base_constraints topo conf).exportB r t = false) := by
  have hchar : ∀ a b, (load_base_constraints topo conf).neighborB a b = true ↔
      ∃ p ∈ topo.ibgpPeMesh.getD [], (p = (a, b) ∨ p = (b, a)) ∧
        a ∈ (load_base_constraints topo conf).routerIds ∧
        b ∈ (load_base_constraints topo conf).routerIds := by
    intro a b
    unfold PolicyModel.neighborB load_base_constraints
    simp only [List.elem_iff]
    exact mem_buildTruePairs
  refine ⟨?_, hchar, ?_⟩
  · intro a b
    have h1 := hchar a b
    have h2 := hchar b a
    by_cases hab : (load_base_constraints topo conf).neighborB a b = true
    · obtain ⟨p, hp, hor, ha, hb⟩ := h1.mp hab
      have : (load_base_constraints topo conf).neighborB b a = true :=
        h2.mpr ⟨p, hp, hor.symm, hb, ha⟩
      rw [hab, this]
    · by_cases hba : (load_base_constraints topo conf).neighborB b a = true
      · obtain ⟨p, hp, hor, hb, ha⟩ := h2.mp hba
        exact absurd (h1.mpr ⟨p, hp, hor.symm, ha, hb⟩) hab
      · rw [Bool.eq_false_iff.mpr hab, Bool.eq_false_iff.mpr hba]
  · intro r hr
    have hnone : lookupLastIntent (load_base_constraints topo conf).intents r = none := by
      apply lookupLastIntent_none
      exact hr
    refine ⟨?_, fun t => ⟨?_, ?_⟩⟩
    · unfold PolicyModel.aclDb
      rw [hnone]
    · unfold PolicyModel.importB
      rw [hnone]
    · unfold PolicyModel.exportB
      rw [hnone]

/-- Witness for C8's conditional parts on the reference model and a router
absent from the configuration. -/
theorem model_relations_witness :
    ((load_base_constraints topoEx confEx).neighborB "PE2" "PE1" =
      (load_base_constraints topoEx confEx).neighborB "PE1" "PE2") ∧
    ((load_base_constraints topoEx confEx).neighborB "PE1" "PE2" = true ↔
      ∃ p ∈ topoEx.ibgpPeMesh.getD [], (p = ("PE1", "PE2") ∨ p = ("PE2", "PE1")) ∧
        "PE1" ∈ (load_base_constraints topoEx confEx).routerIds ∧
        "PE2" ∈ (load_base_constraints topoEx confEx).routerIds) ∧
    ((load_base_constraints topoEx confEx).aclDb "P0" = [] ∧
      ∀ t, (load_base_constraints topoEx confEx).importB "P0" t = false ∧
        (load_base_constraints topoEx confEx).exportB "P0" t = false) :=
  ⟨(model_relations topoEx confEx).1 "PE2" "PE1",
   (model_relations topoEx confEx).2.1 "PE1" "PE2",
   (model_relations topoEx confEx).2.2 "P0" (by decide)⟩

/- ===== Model-construction validation (claim C5) ===== -/

/-- Modelled from the claim's words (the validation the claim asserts):
well-formed input has pairwise-distinct router ids and, in each chain,
pairwise-distinct sequence indexes, every action inside permit/deny, and
every rule's prefix and mask parseable to an interval. -/
def claimWellFormed (topo : TopoData) (conf : ConfData) : Prop :=
  (topo.nodes.map (fun n => n.id)).Nodup ∧
  ∀ c ∈ conf.vpnNetworkIntents,
    (c.importRouteFilters.map (fun r => r.index.getD 0)).Nodup ∧
    ∀ r ∈ c.importRouteFilters,
      (r.act.getD "permit" = "permit" ∨ r.act.getD "permit" = "deny") ∧
      (parseRuleHead r).isSome = true

/-- A topology with a duplicated router id. -/
def topoBad : TopoData :=
  { nodes := [{ id := "PE1" }, { id := "PE1" }], ibgpPeMesh := none }

/-- A rule with an action outside permit/deny. -/
def ruleBlock : RawRule :=
  { index := some 5, pfx := some "10.0.0.0/8", act := some "block" }

/-- A configuration with a duplicate sequence index and an unknown
action. -/
def confBad : ConfData :=
  { vpnNetworkIntents := [{ peId := "PE1", importRouteFilters := [ruleBlock, ruleBlock] }] }

/-- C5 counterexample: on input that is malformed in the claim's sense
(duplicate router id, duplicate sequence index, action `block`), model
construction does not abort: it produces a model that keeps the malformed
rules verbatim, and compiling them silently treats the unknown action as
permit (the compiled chain denies nothing, even inside the rule's own
interval). -/
theorem construction_no_validation_counterexample :
    ¬ claimWellFormed topoBad confBad ∧
    (load_base_constraints topoBad confBad).aclDb "PE1" = [ruleBlock, ruleBlock] ∧
    (∃ e, build_acl_logic ((load_base_constraints topoBad confBad).aclDb "PE1") = some e ∧
      evalB 167772500 e = false) := by
  refine ⟨?_, by decide, ?_⟩
  · intro h
    exact absurd h.1 (by decide)
  · exact ⟨.bite (.band (.varGe 167772160) (.varLe 184549375)) (.boolVal false)
      (.bite (.band (.varGe 167772160) (.varLe 184549375)) (.boolVal false)
        (.boolVal false)), by decide, by decide⟩

/-- C5 amended: model construction performs no validation and never
fails: whatever the input, it stores each configured pe's raw filter list
(sorted by sequence index) unchanged — duplicate ids, invalid masks,
malformed prefixes, unknown actions and duplicate indexes included — and
an action outside permit/deny is not rejected anywhere: whenever a rule
compiles, a non-`deny` action yields the permit flag.  Malformed
prefixes or masks surface only later, when the chain is compiled. -/
theorem construction_accepts_unvalidated (topo : TopoData) (conf : ConfData) :
    (∀ pe c, lookupLastIntent conf.vpnNetworkIntents pe = some c →
      (load_base_constraints topo conf).aclDb pe = sortFilters c.importRouteFilters) ∧
    (∀ (r : RawRule) (st en : Nat) (d : Bool), parseRuleHead r = some (st, en, d) →
      r.act.getD "permit" ≠ "deny" → d = false) := by
  constructor
  · intro pe c h
    unfold PolicyModel.aclDb
    have hi : (load_base_constraints topo conf).intents = conf.vpnNetworkIntents := rfl
    rw [hi, h]
  · intro r st en d h hact
    rw [parseRuleHead_deny_flag h]
    exact beq_eq_false_iff_ne.mpr hact

/-- Witness for C5's amended statement on the malformed input. -/
theorem construction_accepts_unvalidated_witness :
    (load_base_constraints topoBad confBad).aclDb "PE1" =
      sortFilters [ruleBlock, ruleBlock] ∧ (false = false) :=
  ⟨(construction_accepts_unvalidated topoBad confBad).1 "PE1"
      { peId := "PE1", importRouteFilters := [ruleBlock, ruleBlock] } (by decide),
   (construction_accepts_unvalidated topoBad confBad).2 ruleBlock
      167772160 184549375 false (by decide) (by decide)⟩

/- ===== Strategy equivalence (claim C1) ===== -/

/-- A first-order interpretation of the solver signature: carriers for the
two opaque sorts, values for the router and RT constants and the free
`rt_val` constant, the three relation functions, the global denied
predicate, and the `target_ip_var` value. -/
structure Interp where
  R : Type
  RT : Type
  router : String → R
  rtc : String → RT
  rtVal : RT
  neighbor : R → R → Bool
  importF : R → RT → Bool
  exportF : R → RT → Bool
  denied : R → Int → Bool
  targetIp : Int

/-- The assertions shared by both benchmark modes: router distinctness,
the neighbor equations over the full router product, RT distinctness, the
RT-membership equations, and the bounds on `target_ip_var`. -/
def contextHolds (m : PolicyModel) (I : Interp) : Prop :=
  m.routerIds.Pairwise (fun a b => I.router a ≠ I.router b) ∧
  (∀ a ∈ m.routerIds, ∀ b ∈ m.routerIds,
    I.neighbor (I.router a) (I.router b) = m.neighborB a b) ∧
  m.allRtStrs.Pairwise (fun a b => I.rtc a ≠ I.rtc b) ∧
  (∀ r ∈ m.routerIds, ∀ t ∈ m.allRtStrs,
    I.importF (I.router r) (I.rtc t) = m.importB r t ∧
    I.exportF (I.router r) (I.rtc t) = m.exportB r t) ∧
  (0 ≤ I.targetIp ∧ I.targetIp ≤ 4294967295)

/-- The universally quantified definitions of `Is_Prefix_Denied_Global`
the monolithic mode asserts, one per `acl_db` entry: at every address
value, the predicate at that router's constant equals the compiled chain
expression. -/
def monoAxioms (m : PolicyModel) (I : Interp) : Prop :=
  ∀ nid ∈ m.aclKeys, ∀ e, build_acl_logic (m.aclDb nid) = some e →
    ∀ v : Int, I.denied (I.router nid) v = evalB v e

/-- The per-query assertions of `check_mono`: the target-address equality
and the propagation conjunction referencing the global denied
predicate. -/
def monoQueryHolds (q : NetQuery) (I : Interp) : Prop :=
  (∃ n, ip_str_to_int q.ipStr = some n ∧ I.targetIp = (n : Int)) ∧
  I.neighbor (I.router q.src) (I.router q.dst) = true ∧
  I.exportF (I.router q.src) I.rtVal = true ∧
  I.importF (I.router q.dst) I.rtVal = true ∧
  I.denied (I.router q.dst) I.targetIp = false

/-- The per-query assertions of `check_hybrid`: the target-address
equality and the propagation conjunction with the destination chain
compiled at query time and inlined. -/
def hybQueryHolds (m : PolicyModel) (q : NetQuery) (I : Interp) : Prop :=
  (∃ n, ip_str_to_int q.ipStr = some n ∧ I.targetIp = (n : Int)) ∧
  I.neighbor (I.router q.src) (I.router q.dst) = true ∧
  I.exportF (I.router q.src) I.rtVal = true ∧
  I.importF (I.router q.dst) I.rtVal = true ∧
  (∃ e, build_acl_logic (m.aclDb q.dst) = some e ∧ evalB I.targetIp e = false)

/-- Satisfiability of a query under the monolithic (global) strategy: some
interpretation satisfies the shared context, the quantified global
definitions, and the query formula. -/
def satMono (m : PolicyModel) (q : NetQuery) : Prop :=
  ∃ I : Interp, contextHolds m I ∧ monoAxioms m I ∧ monoQueryHolds q I

/-- Satisfiability of a query under the hybrid (local) strategy: some
interpretation satisfies the shared context and the query formula with
the inlined chain. -/
def satHyb (m : PolicyModel) (q : NetQuery) : Prop :=
  ∃ I : Interp, contextHolds m I ∧ hybQueryHolds m q I

theorem mem_aclKeys {m : PolicyModel} {r : String} (h : r ∈ m.routerIds) :
    r ∈ m.aclKeys := by
  unfold PolicyModel.aclKeys
  by_cases hc : r ∈ m.confPes
  · exact List.mem_append_left _ hc
  · apply List.mem_append_right
    apply List.mem_filter.mpr
    refine ⟨h, ?_⟩
    simp [List.elem_iff, hc]

theorem aclKeys_subset {m : PolicyModel} (hconf : ∀ pe ∈ m.confPes, pe ∈ m.routerIds) :
    ∀ k ∈ m.aclKeys, k ∈ m.routerIds := by
  intro k hk
  unfold PolicyModel.aclKeys at hk
  rcases List.mem_append.mp hk with h | h
  · exact hconf k h
  · exact (List.mem_filter.mp h).1

theorem pairwise_ne_inj {R : Type} {f : String → R} {l : List String}
    (h : l.Pairwise (fun a b => f a ≠ f b)) :
    ∀ a ∈ l, ∀ b ∈ l, f a = f b → a = b := by
  induction l with
  | nil => intro a ha; cases ha
  | cons x xs ih =>
    rw [List.pairwise_cons] at h
    intro a ha b hb hf
    rcases List.mem_cons.mp ha with ha1 | ha1 <;> rcases List.mem_cons.mp hb with hb1 | hb1
    · rw [ha1, hb1]
    · subst ha1
      exact absurd hf (h.1 b hb1)
    · subst hb1
      exact absurd hf.symm (h.1 a ha1)
    · exact ih h.2 a ha1 b hb1 hf

/-- C1: for a fixed model and query whose destination router is declared
(and whose chain compiles, so both modes produce a verdict at all), the
monolithic strategy's constraint set and the hybrid strategy's constraint
set are equisatisfiable: the two strategies return the same verdict. -/
theorem strategy_equivalence (m : PolicyModel) (q : NetQuery)
    (hdst : q.dst ∈ m.routerIds)
    (hconf : ∀ pe ∈ m.confPes, pe ∈ m.routerIds)
    (hbuild : (build_acl_logic (m.aclDb q.dst)).isSome = true) :
    satMono m q ↔ satHyb m q := by
  constructor
  · rintro ⟨I, hctx, hax, ⟨n, hip1, hip2⟩, hnb, hex, him, hden⟩
    obtain ⟨e, he⟩ := Option.isSome_iff_exists.mp hbuild
    refine ⟨I, hctx, ⟨n, hip1, hip2⟩, hnb, hex, him, e, he, ?_⟩
    have hd := hax q.dst (mem_aclKeys hdst) e he I.targetIp
    rw [← hd]
    exact hden
  · rintro ⟨I, hctx, ⟨n, hip1, hip2⟩, hnb, hex, him, e, he, hev⟩
    classical
    refine ⟨{ I with denied := fun rr v =>
        if h : ∃ nid, nid ∈ m.aclKeys ∧ I.router nid = rr then
          match build_acl_logic (m.aclDb h.choose) with
          | some e0 => evalB v e0
          | none => true
        else true }, hctx, ?_, ⟨n, hip1, hip2⟩, hnb, hex, him, ?_⟩
    · intro nid hnid e0 he0 v
      dsimp only
      have hpf : ∃ nid', nid' ∈ m.aclKeys ∧ I.router nid' = I.router nid :=
        ⟨nid, hnid, rfl⟩
      rw [dif_pos hpf]
      have hspec := hpf.choose_spec
      have heq : hpf.choose = nid :=
        pairwise_ne_inj hctx.1 _ (aclKeys_subset hconf _ hspec.1) nid
          (aclKeys_subset hconf nid hnid) hspec.2
      rw [heq, he0]
    · dsimp only
      have hpf : ∃ nid', nid' ∈ m.aclKeys ∧ I.router nid' = I.router q.dst :=
        ⟨q.dst, mem_aclKeys hdst, rfl⟩
      rw [dif_pos hpf]
      have hspec := hpf.choose_spec
      have heq : hpf.choose = q.dst :=
        pairwise_ne_inj hctx.1 _ (aclKeys_subset hconf _ hspec.1) q.dst hdst hspec.2
      rw [heq, he]
      exact hev

/-- Witness for C1 on the reference model and the concrete query
PE1 to PE2 for 192.168.1.1. -/
theorem strategy_equivalence_witness :
    satMono mEx { src := "PE1", dst := "PE2", ipStr := "192.168.1.1" } ↔
      satHyb mEx { src := "PE1", dst := "PE2", ipStr := "192.168.1.1" } :=
  strategy_equivalence mEx { src := "PE1", dst := "PE2", ipStr := "192.168.1.1" }
    (by decide) (by decide) (by decide)
